import Mathlib

/-
  Verification of the pyOVT concept-search core (app/routers/search.py and
  app/routers/concept.py) against its natural-language specification.

  The relational store is modelled as lists of rows; each router handler is
  translated into a pure function over such a store.  SQL LIKE/ILIKE pattern
  semantics (with the PostgreSQL default backslash escape) are modelled
  explicitly, because the handlers interpolate the raw query string into
  LIKE patterns.  ORDER BY clauses are modelled by a stable insertion sort
  over lexicographic keys; provider-defined operators (trigram similarity,
  the embedding encoder and the pgvector cosine-distance operator) are taken
  as function parameters, as the spec treats them as external collaborators.
  Dates on rows are omitted: no handler in the core reads them.
-/

namespace PyOVT

/-! ## SQL LIKE pattern semantics -/

/-- All suffixes of a character list, longest first (the list itself down to `[]`). -/
def suffixes : List Char → List (List Char)
  | [] => [[]]
  | c :: s => (c :: s) :: suffixes s

/-- One element of a parsed LIKE pattern: `%`, `_`, a literal character, or
the invalid trailing escape (which PostgreSQL rejects, so it matches nothing). -/
inductive Tok where
  | pct : Tok
  | single : Tok
  | lit : Char → Tok
  | bad : Tok
deriving DecidableEq

/-- Parse a LIKE pattern, resolving the default backslash escape: an escaped
character becomes a literal, a trailing backslash is invalid. -/
def lexPattern : List Char → List Tok
  | [] => []
  | [p] =>
    if p = '%' then [Tok.pct]
    else if p = '_' then [Tok.single]
    else if p = '\\' then [Tok.bad]
    else [Tok.lit p]
  | p :: p2 :: ps =>
    if p = '%' then Tok.pct :: lexPattern (p2 :: ps)
    else if p = '_' then Tok.single :: lexPattern (p2 :: ps)
    else if p = '\\' then Tok.lit p2 :: lexPattern ps
    else Tok.lit p :: lexPattern (p2 :: ps)

/-- Match a whole string against a parsed LIKE pattern: `%` matches any
sequence (tried over every suffix), `_` any single character, a literal
matches itself. -/
def likeMatchT : List Tok → List Char → Bool
  | [], s => s.isEmpty
  | Tok.pct :: ps, s => (suffixes s).any (fun t => likeMatchT ps t)
  | Tok.single :: _, [] => false
  | Tok.single :: ps, _ :: s => likeMatchT ps s
  | Tok.lit _ :: _, [] => false
  | Tok.lit a :: ps, c :: s => (c == a) && likeMatchT ps s
  | Tok.bad :: _, _ => false

/-- PostgreSQL LIKE matching of a whole string against a raw pattern. -/
def likeMatch (pattern s : List Char) : Bool := likeMatchT (lexPattern pattern) s

/-- Literal test: the second list starts with the first one. -/
def isPre : List Char → List Char → Bool
  | [], _ => true
  | _ :: _, [] => false
  | p :: ps, c :: s => (c == p) && isPre ps s

/-- Literal test: the first list occurs contiguously inside the second. -/
def hasSub (w s : List Char) : Bool := (suffixes s).any (fun t => isPre w t)

/-- Case-folded character list of a string; models both SQL `lower()` and
Python `str.lower()` on the data handled by this app. -/
def lowerL (s : String) : List Char := s.toList.map Char.toLower

/-- SQL ILIKE: LIKE after case-folding both operands. -/
def ilike (s pattern : String) : Bool := likeMatch (lowerL pattern) (lowerL s)

/-- The characters Python `str.strip()` removes from the query. -/
def pyWhitespace (c : Char) : Bool :=
  c = ' ' || c = '\t' || c = '\n' || c = '\r' || c = '\x0b' || c = '\x0c'

/-- Python `q.strip()` on the query string (leading/trailing whitespace removed). -/
def pyStrip (s : String) : List Char :=
  ((s.toList.dropWhile pyWhitespace).reverse.dropWhile pyWhitespace).reverse

/-- The query contains no LIKE metacharacter (`%`, `_`, or the escape
backslash), stated on its case-folded characters. -/
def noWild (w : List Char) : Prop := ∀ c ∈ w, c ≠ '%' ∧ c ≠ '_' ∧ c ≠ '\\'

/-- Wildcard-freeness of a query string. -/
def NoWildcards (q : String) : Prop := noWild (lowerL q)

instance (w : List Char) : Decidable (noWild w) := List.decidableBAll _ w

instance (q : String) : Decidable (NoWildcards q) := by
  unfold NoWildcards; infer_instance

/-! ## Data model (app/models.py; ConceptEmbedding is not under src) -/

/-- A row of the `concept` table (validity dates omitted, never read by the core). -/
structure Concept where
  concept_id : Int
  concept_name : String
  domain_id : String
  vocabulary_id : String
  concept_class_id : String
  standard_concept : Option String
  concept_code : String
  invalid_reason : Option String
deriving DecidableEq

/-- A row of the `concept_relationship` table (validity dates omitted). -/
structure ConceptRelationship where
  concept_id_1 : Int
  concept_id_2 : Int
  relationship_id : String
  invalid_reason : Option String
deriving DecidableEq

/-- A row of the `relationship` reference table. -/
structure Relationship where
  relationship_id : String
  relationship_name : String
  is_hierarchical : String
  defines_ancestry : String
  reverse_relationship_id : String
  relationship_concept_id : Int
deriving DecidableEq

/-- A row of the `concept_ancestor` transitive-closure table. -/
structure ConceptAncestor where
  ancestor_concept_id : Int
  descendant_concept_id : Int
  min_levels_of_separation : Int
  max_levels_of_separation : Int
deriving DecidableEq

/-- Modelled from the spec: the ConceptEmbedding row (concept id plus stored
vector) is declared outside src; only its columns `concept_id` and
`embedding` are read by the search handler.  Vector entries are modelled as
rationals; the spec's model-name/version/timestamp columns are never read by
the core and are omitted. -/
structure ConceptEmbedding where
  concept_id : Int
  embedding : List ℚ
deriving DecidableEq

/-- The read-only relational snapshot one request sees. -/
structure Store where
  concepts : List Concept
  concept_relationships : List ConceptRelationship
  relationships : List Relationship
  concept_ancestors : List ConceptAncestor
  concept_embeddings : List ConceptEmbedding
deriving DecidableEq

/-! ## Sorting and filters -/

/-- ORDER BY on a composite key: stable insertion sort, ascending in the key. -/
def sortByKey {α β : Type} [LinearOrder β] (f : α → β) (l : List α) : List α :=
  @List.insertionSort α (fun a b => f a ≤ f b)
    (fun a b => inferInstanceAs (Decidable (f a ≤ f b))) l

/-- One optional string filter, as the handlers apply it: Python truthiness
means a missing or empty string applies no filter. -/
def optStrFilter {α : Type} (field : α → String) (v : Option String) (l : List α) : List α :=
  match v with
  | some s => if s = "" then l else l.filter (fun x => field x == s)
  | none => l

/-- The `standard_only == "true"` filter restricting to standardness code 'S'. -/
def stdFilter {α : Type} (proj : α → Concept) (standard_only : Option String) (l : List α) : List α :=
  if standard_only == some "true" then
    l.filter (fun x => (proj x).standard_concept == some "S")
  else l

/-- The three strategy-independent filters, conjoined as in every mode. -/
def applyFilters {α : Type} (proj : α → Concept)
    (vocabulary_id domain_id standard_only : Option String) (l : List α) : List α :=
  stdFilter proj standard_only
    (optStrFilter (fun x => (proj x).domain_id) domain_id
      (optStrFilter (fun x => (proj x).vocabulary_id) vocabulary_id l))

/-! ## Search handler (app/routers/search.py, search_concepts) -/

/-- Encodes one `case((cond, 1), else_=0).desc()` ORDER BY item: the matching
rows (flag 0) sort before the others (flag 1) in ascending key order. -/
def boolFlag (b : Bool) : Nat := if b then 0 else 1

/-- The six-component exact/prefix-mode ORDER BY key, lexicographic. -/
abbrev RankKey6 := Lex (Nat × Lex (Nat × Lex (Nat × Lex (Nat × Lex (Nat × List Char)))))

/-- The exact-mode ranking key as the SQL produces it: the two `startswith`
items compile to unescaped `LIKE q_lower || '%'` patterns. -/
def exact_rank (q_lower : List Char) (c : Concept) : RankKey6 :=
  toLex (boolFlag (lowerL c.concept_code == q_lower),
    toLex (boolFlag (lowerL c.concept_name == q_lower),
      toLex (boolFlag (likeMatch (q_lower ++ ['%']) (lowerL c.concept_code)),
        toLex (boolFlag (likeMatch (q_lower ++ ['%']) (lowerL c.concept_name)),
          toLex (boolFlag (c.standard_concept == some "S"), c.concept_name.toList)))))

/-- The exact-mode ranking key in the spec's words: literal case-insensitive
equality, literal starts-with, standardness, then name.  Used to compare the
implemented key against the specified one. -/
def spec_exact_rank (q : String) (c : Concept) : RankKey6 :=
  toLex (boolFlag (lowerL c.concept_code == lowerL q),
    toLex (boolFlag (lowerL c.concept_name == lowerL q),
      toLex (boolFlag (isPre (lowerL q) (lowerL c.concept_code)),
        toLex (boolFlag (isPre (lowerL q) (lowerL c.concept_name)),
          toLex (boolFlag (c.standard_concept == some "S"), c.concept_name.toList)))))

/-- The fuzzy-mode ORDER BY key: exact lowered code equality first, then
name trigram similarity descending, then name ascending. -/
abbrev FuzzyKey := Lex (Nat × Lex (ℚ × List Char))

/-- Fuzzy ranking key; `similarity` is the provider's trigram score. -/
def fuzzy_rank (similarity : String → String → ℚ) (q : String) (q_lower : List Char)
    (c : Concept) : FuzzyKey :=
  toLex (boolFlag (lowerL c.concept_code == q_lower),
    toLex (-(similarity c.concept_name q), c.concept_name.toList))

/-- Exact/prefix-mode match predicate: `name ILIKE '%q%' OR code ILIKE '%q%'`
with the query interpolated unescaped. -/
def exact_match (q : String) (c : Concept) : Bool :=
  ilike c.concept_name ("%" ++ q ++ "%") || ilike c.concept_code ("%" ++ q ++ "%")

/-- Fuzzy-mode match predicate: provider trigram-threshold operator on the
name, OR `code ILIKE '%q%'`; `trgm` is the provider's `%` operator. -/
def fuzzy_match (trgm : String → String → Bool) (q : String) (c : Concept) : Bool :=
  trgm c.concept_name q || ilike c.concept_code ("%" ++ q ++ "%")

/-- Semantic mode: inner-join concepts to their stored embeddings, score by
`1 - cosine_distance`, filter, order by similarity descending, truncate.
`dist` is the pgvector cosine-distance operator; `embed` the query encoder. -/
def semantic_results (store : Store) (embed : String → List ℚ)
    (dist : List ℚ → List ℚ → ℚ) (q : String)
    (vocabulary_id domain_id standard_only : Option String) (limit : Nat) :
    List (Concept × ℚ) :=
  let query_embedding := embed q
  let joined := store.concepts.flatMap fun c =>
    (store.concept_embeddings.filter fun e => e.concept_id == c.concept_id).map fun e =>
      (c, 1 - dist e.embedding query_embedding)
  let filtered := applyFilters Prod.fst vocabulary_id domain_id standard_only joined
  (sortByKey (fun p => -p.2) filtered).take limit

/-- The `/search/` handler.  Early-returns on an empty or whitespace-only
query; `semantic == "true"` takes precedence over `fuzzy == "true"`;
otherwise the exact/prefix mode runs. -/
def search_concepts (store : Store) (embed : String → List ℚ)
    (dist : List ℚ → List ℚ → ℚ) (trgm : String → String → Bool)
    (similarity : String → String → ℚ) (q : String)
    (vocabulary_id domain_id fuzzy semantic standard_only : Option String)
    (limit : Nat) : List Concept :=
  if q = "" ∨ pyStrip q = [] then []
  else
    let q_lower := lowerL q
    if semantic == some "true" then
      (semantic_results store embed dist q vocabulary_id domain_id standard_only limit).map
        Prod.fst
    else if fuzzy == some "true" then
      (sortByKey (fuzzy_rank similarity q q_lower)
        (applyFilters id vocabulary_id domain_id standard_only
          (store.concepts.filter (fuzzy_match trgm q)))).take limit
    else
      (sortByKey (exact_rank q_lower)
        (applyFilters id vocabulary_id domain_id standard_only
          (store.concepts.filter (exact_match q)))).take limit

/-! ## Concept handler (app/routers/concept.py) -/

/-- A joined closure row as the concept page selects it: the closure row
plus name, vocabulary and code of the joined (ancestor or descendant) concept. -/
structure AncestorRow where
  ca : ConceptAncestor
  concept_name : String
  vocabulary_id : String
  concept_code : String
deriving DecidableEq

/-- What the `/concept/{id}` handler assembles for the template. -/
structure ConceptDetailView where
  concept : Concept
  ancestors : List AncestorRow
  descendants : List AncestorRow
  relationships : List ConceptRelationship
deriving DecidableEq

/-- The `/concept/{id}` handler; `none` models the 404 on an unknown id. -/
def get_concept (store : Store) (concept_id : Int) : Option ConceptDetailView :=
  match store.concepts.find? (fun c => c.concept_id == concept_id) with
  | none => none
  | some concept =>
    let ancestors := sortByKey (fun r : AncestorRow => r.ca.min_levels_of_separation)
      ((store.concept_ancestors.filter fun ca =>
          ca.descendant_concept_id == concept_id &&
          ca.ancestor_concept_id != concept_id).flatMap fun ca =>
        (store.concepts.filter fun c => c.concept_id == ca.ancestor_concept_id).map fun c =>
          ⟨ca, c.concept_name, c.vocabulary_id, c.concept_code⟩)
    let descendants :=
      (store.concept_ancestors.filter fun ca =>
          ca.ancestor_concept_id == concept_id &&
          ca.descendant_concept_id != concept_id &&
          ca.min_levels_of_separation == 1).flatMap fun ca =>
        (store.concepts.filter fun c => c.concept_id == ca.descendant_concept_id).map fun c =>
          ⟨ca, c.concept_name, c.vocabulary_id, c.concept_code⟩
    let relationships :=
      store.concept_relationships.filter fun cr => cr.concept_id_1 == concept_id
    some ⟨concept, ancestors, descendants, relationships⟩

/-- A row of the `/concept/{id}/similar` select list. -/
structure RelatedRow where
  relationship_id : String
  concept_id : Int
  concept_name : String
  vocabulary_id : String
  concept_code : String
  standard_concept : Option String
deriving DecidableEq

/-- Outgoing valid 'Maps to'/'Mapped from' edges (this concept as source),
joined to the target concept and to the relationship reference row,
truncated to `limit` as the SQL query is. -/
def similar_outgoing (store : Store) (concept_id : Int) (limit : Nat) : List RelatedRow :=
  ((store.concept_relationships.filter fun cr =>
      cr.concept_id_1 == concept_id &&
      (cr.relationship_id == "Maps to" || cr.relationship_id == "Mapped from") &&
      cr.invalid_reason.isNone).flatMap fun cr =>
    (store.concepts.filter fun rc => rc.concept_id == cr.concept_id_2).flatMap fun rc =>
      (store.relationships.filter fun r => r.relationship_id == cr.relationship_id).map fun _ =>
        ⟨cr.relationship_id, rc.concept_id, rc.concept_name, rc.vocabulary_id,
          rc.concept_code, rc.standard_concept⟩).take limit

/-- Incoming valid 'Maps to'/'Mapped from' edges (this concept as target). -/
def similar_incoming (store : Store) (concept_id : Int) (limit : Nat) : List RelatedRow :=
  ((store.concept_relationships.filter fun cr =>
      cr.concept_id_2 == concept_id &&
      (cr.relationship_id == "Maps to" || cr.relationship_id == "Mapped from") &&
      cr.invalid_reason.isNone).flatMap fun cr =>
    (store.concepts.filter fun rc => rc.concept_id == cr.concept_id_1).flatMap fun rc =>
      (store.relationships.filter fun r => r.relationship_id == cr.relationship_id).map fun _ =>
        ⟨cr.relationship_id, rc.concept_id, rc.concept_name, rc.vocabulary_id,
          rc.concept_code, rc.standard_concept⟩).take limit

/-- The insertion-ordered dict keyed by concept id: first occurrence wins. -/
def dedupByConceptId : List RelatedRow → List Int → List RelatedRow
  | [], _ => []
  | r :: rs, seen =>
    if r.concept_id ∈ seen then dedupByConceptId rs seen
    else r :: dedupByConceptId rs (r.concept_id :: seen)

/-- The `/concept/{id}/similar` handler: outgoing then incoming rows,
deduplicated by target concept id, truncated to `limit`. -/
def find_similar_concepts (store : Store) (concept_id : Int) (limit : Nat) : List RelatedRow :=
  (dedupByConceptId
    (similar_outgoing store concept_id limit ++ similar_incoming store concept_id limit)
    []).take limit

/-- A row of the `/concept/{id}/descendants/search` select list. -/
structure DescRow where
  concept_id : Int
  concept_name : String
  vocabulary_id : String
  domain_id : String
  concept_code : String
  standard_concept : Option String
deriving DecidableEq

/-- The `/concept/{id}/descendants/search` handler: empty/whitespace query
short-circuits; otherwise restrict to direct (separation = 1) descendants and
match the name against the unescaped `'%q%'` ILIKE pattern. -/
def search_descendants (store : Store) (concept_id : Int) (q : String) (limit : Nat) :
    List DescRow :=
  if q = "" ∨ pyStrip q = [] then []
  else
    let descendant_ids :=
      (store.concept_ancestors.filter fun ca =>
        ca.ancestor_concept_id == concept_id &&
        ca.min_levels_of_separation == 1).map fun ca => ca.descendant_concept_id
    if descendant_ids.isEmpty then []
    else
      ((store.concepts.filter fun c =>
          descendant_ids.contains c.concept_id &&
          ilike c.concept_name ("%" ++ q ++ "%")).map fun c =>
        ⟨c.concept_id, c.concept_name, c.vocabulary_id, c.domain_id,
          c.concept_code, c.standard_concept⟩).take limit

/-! ## Lemmas on the LIKE machinery -/

theorem nil_mem_suffixes (s : List Char) : [] ∈ suffixes s := by
  induction s with
  | nil => simp [suffixes]
  | cons c s ih => simp [suffixes, ih]

theorem self_mem_suffixes (s : List Char) : s ∈ suffixes s := by
  cases s with
  | nil => simp [suffixes]
  | cons c s => simp [suffixes]

/-- A lone `%` token matches every string. -/
theorem likeMatchT_pct (s : List Char) : likeMatchT [Tok.pct] s = true := by
  rw [likeMatchT, List.any_eq_true]
  exact ⟨[], nil_mem_suffixes s, rfl⟩

/-- Prefixing `%` to a token pattern that matches everything keeps it
matching everything. -/
theorem likeMatchT_pct_cons (ps : List Tok) (h : ∀ t, likeMatchT ps t = true)
    (s : List Char) : likeMatchT (Tok.pct :: ps) s = true := by
  rw [likeMatchT, List.any_eq_true]
  exact ⟨s, self_mem_suffixes s, h s⟩

theorem noWild_cons {a : Char} {w : List Char} (h : noWild (a :: w)) :
    (a ≠ '%' ∧ a ≠ '_' ∧ a ≠ '\\') ∧ noWild w :=
  ⟨h a (List.mem_cons_self _ _), fun c hc => h c (List.mem_cons_of_mem a hc)⟩

/-- A wildcard-free segment of a pattern parses to literal tokens. -/
theorem lexPattern_wildfree {w : List Char} (hw : noWild w) (rest : List Char) :
    lexPattern (w ++ rest) = w.map Tok.lit ++ lexPattern rest := by
  induction w with
  | nil => rfl
  | cons a w ih =>
    obtain ⟨⟨h1, h2, h3⟩, hw'⟩ := noWild_cons hw
    rcases hr : w ++ rest with _ | ⟨b, t⟩
    · obtain ⟨hwn, hrn⟩ := List.append_eq_nil.mp hr
      subst hwn; subst hrn
      show lexPattern [a] = List.map Tok.lit [a] ++ lexPattern []
      simp [lexPattern, h1, h2, h3]
    · rw [List.cons_append, hr, lexPattern, if_neg h1, if_neg h2, if_neg h3,
        ← hr, ih hw', List.map_cons, List.cons_append]

/-- LIKE on literal tokens followed by a single `%` is exactly the literal
starts-with test. -/
theorem likeMatchT_lits_pct (w s : List Char) :
    likeMatchT (w.map Tok.lit ++ [Tok.pct]) s = isPre w s := by
  induction w generalizing s with
  | nil => rw [List.map_nil, List.nil_append, likeMatchT_pct]; rfl
  | cons a w ih =>
    cases s with
    | nil => rfl
    | cons c s =>
      show ((c == a) && likeMatchT (w.map Tok.lit ++ [Tok.pct]) s) = isPre (a :: w) (c :: s)
      rw [ih, isPre]

/-- On a wildcard-free pattern followed by a single `%`, LIKE is exactly the
literal starts-with test. -/
theorem likeMatch_wildfree_pct (w : List Char) (hw : noWild w) (s : List Char) :
    likeMatch (w ++ ['%']) s = isPre w s := by
  rw [likeMatch, lexPattern_wildfree hw]
  have h1 : lexPattern ['%'] = [Tok.pct] := by decide
  rw [h1, likeMatchT_lits_pct]

/-- On `'%' ++ w ++ '%'` with `w` wildcard-free, LIKE matching is exactly the
literal contains test. -/
theorem likeMatch_wildfree_sub (w : List Char) (hw : noWild w) (s : List Char) :
    likeMatch ('%' :: (w ++ ['%'])) s = hasSub w s := by
  have hshape : ∃ b t, w ++ ['%'] = b :: t := by
    cases w with
    | nil => exact ⟨'%', [], rfl⟩
    | cons a w => exact ⟨a, w ++ ['%'], rfl⟩
  obtain ⟨b, t, hbt⟩ := hshape
  have hlex : lexPattern ('%' :: (w ++ ['%'])) = Tok.pct :: lexPattern (w ++ ['%']) := by
    rw [hbt, lexPattern, if_pos rfl]
  rw [likeMatch, hlex, lexPattern_wildfree hw]
  have h1 : lexPattern ['%'] = [Tok.pct] := by decide
  rw [h1, likeMatchT, hasSub]
  simp only [likeMatchT_lits_pct]

/-- The raw pattern `%%%` (a `%` query interpolated between two `%`) matches
every string. -/
theorem likeMatch_pct3 (s : List Char) : likeMatch ['%', '%', '%'] s = true := by
  have h : lexPattern ['%', '%', '%'] = [Tok.pct, Tok.pct, Tok.pct] := by decide
  rw [likeMatch, h]
  exact likeMatchT_pct_cons _ (likeMatchT_pct_cons _ likeMatchT_pct) s

theorem isPre_self (w : List Char) : isPre w w = true := by
  induction w with
  | nil => rfl
  | cons a w ih => simp [isPre, ih]

theorem hasSub_self (w : List Char) : hasSub w w = true := by
  simp only [hasSub, List.any_eq_true]
  exact ⟨w, self_mem_suffixes w, isPre_self w⟩

/-- Case-folding the interpolated pattern `'%' ++ q ++ '%'`. -/
theorem lowerL_search_pattern (q : String) :
    lowerL ("%" ++ q ++ "%") = '%' :: (lowerL q ++ ['%']) := by
  have h : ("%" ++ q ++ "%").toList = '%' :: (q.toList ++ ['%']) := by
    simp [String.toList, String.data_append]
  simp [lowerL, h]

/-- For a wildcard-free query, the interpolated ILIKE predicate is the literal
case-insensitive contains test. -/
theorem ilike_wildfree (q : String) (hq : NoWildcards q) (s : String) :
    ilike s ("%" ++ q ++ "%") = hasSub (lowerL q) (lowerL s) := by
  rw [ilike, lowerL_search_pattern, likeMatch_wildfree_sub _ hq]

/-- `%a%b%`-free queries aside: the all-percent pattern built from `q = "%"`.-/
theorem ilike_all_pct (s : String) : ilike s ("%" ++ "%" ++ "%") = true := by
  have h : lowerL ("%" ++ "%" ++ "%") = ['%', '%', '%'] := by decide
  rw [ilike, h]
  exact likeMatch_pct3 _

/-! ## Lemmas on sorting, filters and the query-emptiness test -/

theorem sortByKey_sorted {α β : Type} [LinearOrder β] (f : α → β) (l : List α) :
    List.Sorted (fun a b => f a ≤ f b) (sortByKey f l) :=
  @List.sorted_insertionSort α (fun a b => f a ≤ f b)
    (fun a b => inferInstanceAs (Decidable (f a ≤ f b)))
    ⟨fun a b => le_total (f a) (f b)⟩ ⟨fun _ _ _ hab hbc => le_trans hab hbc⟩ l

theorem sortByKey_perm {α β : Type} [LinearOrder β] (f : α → β) (l : List α) :
    (sortByKey f l).Perm l :=
  List.perm_insertionSort _ l

theorem mem_sortByKey {α β : Type} [LinearOrder β] {f : α → β} {l : List α} {a : α} :
    a ∈ sortByKey f l ↔ a ∈ l :=
  (sortByKey_perm f l).mem_iff

theorem optStrFilter_subset {α : Type} (field : α → String) (v : Option String)
    (l : List α) : optStrFilter field v l ⊆ l := by
  intro x hx
  cases v with
  | none => exact hx
  | some s =>
    rw [optStrFilter] at hx
    split at hx
    · exact hx
    · exact (List.mem_filter.mp hx).1

theorem stdFilter_subset {α : Type} (proj : α → Concept) (standard_only : Option String)
    (l : List α) : stdFilter proj standard_only l ⊆ l := by
  unfold stdFilter
  split
  · exact fun x hx => (List.mem_filter.mp hx).1
  · exact fun x hx => hx

theorem applyFilters_subset {α : Type} (proj : α → Concept)
    (vocabulary_id domain_id standard_only : Option String) (l : List α) :
    applyFilters proj vocabulary_id domain_id standard_only l ⊆ l :=
  fun _ hx =>
    optStrFilter_subset _ _ _
      (optStrFilter_subset _ _ _ (stdFilter_subset _ _ _ hx))

theorem applyFilters_std {α : Type} {proj : α → Concept}
    {vocabulary_id domain_id : Option String} {l : List α} {x : α}
    (hx : x ∈ applyFilters proj vocabulary_id domain_id (some "true") l) :
    (proj x).standard_concept = some "S" := by
  unfold applyFilters stdFilter at hx
  rw [if_pos (by rfl)] at hx
  simpa using (List.mem_filter.mp hx).2

theorem pyStrip_of_whitespace {q : String} (h : ∀ c ∈ q.toList, pyWhitespace c = true) :
    pyStrip q = [] := by
  unfold pyStrip
  rw [List.dropWhile_eq_nil_iff.mpr h]
  simp

/-! ## Lemmas on the dedup map -/

theorem dedup_subset (l : List RelatedRow) (seen : List Int) :
    dedupByConceptId l seen ⊆ l := by
  induction l generalizing seen with
  | nil => simp [dedupByConceptId]
  | cons r rs ih =>
    intro x hx
    rw [dedupByConceptId] at hx
    by_cases hmem : r.concept_id ∈ seen
    · rw [if_pos hmem] at hx
      exact List.mem_cons_of_mem r (ih seen hx)
    · rw [if_neg hmem] at hx
      rcases List.mem_cons.mp hx with h | h
      · exact h ▸ List.mem_cons_self _ _
      · exact List.mem_cons_of_mem r (ih _ h)

theorem dedup_not_seen {l : List RelatedRow} {seen : List Int} {x : RelatedRow}
    (hx : x ∈ dedupByConceptId l seen) : x.concept_id ∉ seen := by
  induction l generalizing seen with
  | nil => simp [dedupByConceptId] at hx
  | cons r rs ih =>
    rw [dedupByConceptId] at hx
    by_cases hmem : r.concept_id ∈ seen
    · rw [if_pos hmem] at hx
      exact ih hx
    · rw [if_neg hmem] at hx
      rcases List.mem_cons.mp hx with h | h
      · exact h ▸ hmem
      · exact fun hc => ih h (List.mem_cons_of_mem _ hc)

theorem dedup_nodup (l : List RelatedRow) (seen : List Int) :
    ((dedupByConceptId l seen).map (fun r => r.concept_id)).Nodup := by
  induction l generalizing seen with
  | nil => simp [dedupByConceptId]
  | cons r rs ih =>
    rw [dedupByConceptId]
    by_cases hmem : r.concept_id ∈ seen
    · rw [if_pos hmem]
      exact ih seen
    · rw [if_neg hmem, List.map_cons, List.nodup_cons]
      refine ⟨fun hc => ?_, ih _⟩
      obtain ⟨y, hy, hid⟩ := List.mem_map.mp hc
      exact dedup_not_seen hy (hid ▸ List.mem_cons_self _ _)

theorem dedup_find {l : List RelatedRow} {seen : List Int} {x : RelatedRow}
    (hx : x ∈ dedupByConceptId l seen) :
    l.find? (fun y => y.concept_id == x.concept_id) = some x := by
  induction l generalizing seen with
  | nil => simp [dedupByConceptId] at hx
  | cons r rs ih =>
    rw [dedupByConceptId] at hx
    by_cases hmem : r.concept_id ∈ seen
    · rw [if_pos hmem] at hx
      have hne : (r.concept_id == x.concept_id) = false := by
        rw [beq_eq_false_iff_ne]
        intro he
        exact dedup_not_seen hx (he ▸ hmem)
      rw [List.find?_cons, hne]
      exact ih hx
    · rw [if_neg hmem] at hx
      rcases List.mem_cons.mp hx with h | h
      · subst h
        rw [List.find?_cons, beq_self_eq_true]
      · have hne : (r.concept_id == x.concept_id) = false := by
          rw [beq_eq_false_iff_ne]
          intro he
          exact dedup_not_seen h (he ▸ List.mem_cons_self _ _)
        rw [List.find?_cons, hne]
        exact ih h

/-! ## Mode-selection equations for the search handler -/

theorem search_semantic_eq (store : Store) (embed : String → List ℚ)
    (dist : List ℚ → List ℚ → ℚ) (trgm : String → String → Bool)
    (similarity : String → String → ℚ) (q : String)
    (vocabulary_id domain_id fuzzy standard_only : Option String) (limit : Nat)
    (hne : ¬(q = "" ∨ pyStrip q = [])) :
    search_concepts store embed dist trgm similarity q vocabulary_id domain_id fuzzy
      (some "true") standard_only limit =
    (semantic_results store embed dist q vocabulary_id domain_id standard_only limit).map
      Prod.fst := by
  unfold search_concepts
  rw [if_neg hne]
  simp

theorem search_fuzzy_eq (store : Store) (embed : String → List ℚ)
    (dist : List ℚ → List ℚ → ℚ) (trgm : String → String → Bool)
    (similarity : String → String → ℚ) (q : String)
    (vocabulary_id domain_id semantic standard_only : Option String) (limit : Nat)
    (hne : ¬(q = "" ∨ pyStrip q = [])) (hsm : semantic ≠ some "true") :
    search_concepts store embed dist trgm similarity q vocabulary_id domain_id
      (some "true") semantic standard_only limit =
    (sortByKey (fuzzy_rank similarity q (lowerL q))
      (applyFilters id vocabulary_id domain_id standard_only
        (store.concepts.filter (fuzzy_match trgm q)))).take limit := by
  unfold search_concepts
  rw [if_neg hne]
  have h1 : (semantic == some "true") = false := beq_eq_false_iff_ne.mpr hsm
  simp [h1]

theorem search_exact_eq (store : Store) (embed : String → List ℚ)
    (dist : List ℚ → List ℚ → ℚ) (trgm : String → String → Bool)
    (similarity : String → String → ℚ) (q : String)
    (vocabulary_id domain_id fuzzy semantic standard_only : Option String) (limit : Nat)
    (hne : ¬(q = "" ∨ pyStrip q = [])) (hsm : semantic ≠ some "true")
    (hfz : fuzzy ≠ some "true") :
    search_concepts store embed dist trgm similarity q vocabulary_id domain_id fuzzy
      semantic standard_only limit =
    (sortByKey (exact_rank (lowerL q))
      (applyFilters id vocabulary_id domain_id standard_only
        (store.concepts.filter (exact_match q)))).take limit := by
  unfold search_concepts
  rw [if_neg hne]
  have h1 : (semantic == some "true") = false := beq_eq_false_iff_ne.mpr hsm
  have h2 : (fuzzy == some "true") = false := beq_eq_false_iff_ne.mpr hfz
  simp [h1, h2]

/-! ## Demonstration stores used by witnesses and counterexamples -/

/-- A small snapshot exercising every table, including an invalidated edge,
a separation-0 self closure row, and a non-standard concept. -/
def demo_store : Store :=
  { concepts :=
      [⟨1, "Other thing", "Condition", "SNOMED", "Clinical Finding", some "S", "E11", none⟩,
       ⟨2, "xxE11yy", "Condition", "ICD10CM", "3-char nonbill code", none, "ZZZ", none⟩,
       ⟨3, "Type 2 diabetes", "Condition", "SNOMED", "Clinical Finding", some "S",
         "44054006", none⟩],
    concept_relationships :=
      [⟨1, 2, "Maps to", none⟩, ⟨3, 1, "Mapped from", none⟩, ⟨1, 3, "Maps to", some "D"⟩],
    relationships :=
      [⟨"Maps to", "Maps to (SNOMED)", "f", "f", "Mapped from", 44818977⟩,
       ⟨"Mapped from", "Mapped from (SNOMED)", "f", "f", "Maps to", 44818978⟩],
    concept_ancestors := [⟨1, 1, 0, 0⟩, ⟨3, 1, 1, 1⟩, ⟨3, 2, 1, 2⟩],
    concept_embeddings := [⟨1, [1, 0]⟩] }

/-- A snapshot where one concept has two ancestors, exhibiting the unbounded
ancestor listing. -/
def deep_store : Store :=
  { concepts :=
      [⟨100, "Leaf", "Condition", "SNOMED", "Clinical Finding", some "S", "L", none⟩,
       ⟨101, "Mid", "Condition", "SNOMED", "Clinical Finding", some "S", "M", none⟩,
       ⟨102, "Top", "Condition", "SNOMED", "Clinical Finding", some "S", "T", none⟩],
    concept_relationships := [],
    relationships := [],
    concept_ancestors := [⟨101, 100, 1, 1⟩, ⟨102, 100, 2, 2⟩],
    concept_embeddings := [] }

/-! ## Claim theorems -/

/-- C8: for every query that is empty or consists only of whitespace, search
(under every mode and filter combination) and descendant search return the
empty list — for every store, so the candidate-fetch step cannot contribute —
and, being total functions, never signal an error. -/
theorem claim_empty_query (store : Store) (embed : String → List ℚ)
    (dist : List ℚ → List ℚ → ℚ) (trgm : String → String → Bool)
    (similarity : String → String → ℚ) (q : String)
    (vocabulary_id domain_id fuzzy semantic standard_only : Option String)
    (limit : Nat) (concept_id : Int)
    (hq : ∀ c ∈ q.toList, pyWhitespace c = true) :
    search_concepts store embed dist trgm similarity q vocabulary_id domain_id fuzzy
      semantic standard_only limit = [] ∧
    search_descendants store concept_id q limit = [] := by
  have hs : pyStrip q = [] := pyStrip_of_whitespace hq
  constructor
  · unfold search_concepts
    rw [if_pos (Or.inr hs)]
  · unfold search_descendants
    rw [if_pos (Or.inr hs)]

/-- Witness for C8 at the whitespace query `" "`. -/
theorem claim_empty_query_witness :
    (∀ c ∈ (" ").toList, pyWhitespace c = true) ∧
    (search_concepts demo_store (fun _ => []) (fun _ _ => 0) (fun _ _ => false)
        (fun _ _ => 0) " " none none none none none 50 = [] ∧
      search_descendants demo_store 3 " " 50 = []) :=
  ⟨by decide,
    claim_empty_query demo_store (fun _ => []) (fun _ _ => 0) (fun _ _ => false)
      (fun _ _ => 0) " " none none none none none 50 3 (by decide)⟩

/-- C7: with `standard_only = "true"`, every returned concept has
standardness code 'S', in every mode and under any vocabulary/domain filter. -/
theorem claim_standard_only (store : Store) (embed : String → List ℚ)
    (dist : List ℚ → List ℚ → ℚ) (trgm : String → String → Bool)
    (similarity : String → String → ℚ) (q : String)
    (vocabulary_id domain_id fuzzy semantic : Option String) (limit : Nat) :
    ∀ c ∈ search_concepts store embed dist trgm similarity q vocabulary_id domain_id
      fuzzy semantic (some "true") limit, c.standard_concept = some "S" := by
  intro c hc
  unfold search_concepts at hc
  split at hc
  · simp at hc
  · split at hc
    · obtain ⟨p, hp, hpc⟩ := List.mem_map.mp hc
      simp only [semantic_results] at hp
      have hp2 : p ∈ applyFilters Prod.fst vocabulary_id domain_id (some "true") _ :=
        mem_sortByKey.mp (List.take_subset _ _ hp)
      have := applyFilters_std hp2
      rwa [hpc] at this
    · split at hc
      all_goals
        have hc2 : c ∈ applyFilters id vocabulary_id domain_id (some "true") _ :=
          mem_sortByKey.mp (List.take_subset _ _ hc)
        exact applyFilters_std hc2

/-- Witness for C7: an exact-mode search on the demo snapshot whose candidate
set contains a non-standard concept. -/
theorem claim_standard_only_witness :
    ((⟨1, "Other thing", "Condition", "SNOMED", "Clinical Finding", some "S", "E11",
        none⟩ : Concept) ∈
      search_concepts demo_store (fun _ => []) (fun _ _ => 0) (fun _ _ => false)
        (fun _ _ => 0) "E11" none none none none (some "true") 50) ∧
    (⟨1, "Other thing", "Condition", "SNOMED", "Clinical Finding", some "S", "E11",
        none⟩ : Concept).standard_concept = some "S" :=
  ⟨by decide,
    claim_standard_only demo_store (fun _ => []) (fun _ _ => 0) (fun _ _ => false)
      (fun _ _ => 0) "E11" none none none none 50 _ (by decide)⟩

/-- C6 (amended): the result-count cap holds for every search mode, for
related-by-relationship, and for descendant search; the ancestors and
direct-descendants listings of the single-concept fetch take no limit. -/
theorem claim_limit_cap (store : Store) (embed : String → List ℚ)
    (dist : List ℚ → List ℚ → ℚ) (trgm : String → String → Bool)
    (similarity : String → String → ℚ) (q q2 : String)
    (vocabulary_id domain_id fuzzy semantic standard_only : Option String)
    (limit : Nat) (concept_id : Int) :
    (search_concepts store embed dist trgm similarity q vocabulary_id domain_id fuzzy
      semantic standard_only limit).length ≤ limit ∧
    (find_similar_concepts store concept_id limit).length ≤ limit ∧
    (search_descendants store concept_id q2 limit).length ≤ limit := by
  refine ⟨?_, ?_, ?_⟩
  · unfold search_concepts
    split
    · simp
    · split
      · rw [List.length_map]
        unfold semantic_results
        exact List.length_take_le _ _
      · split
        · exact List.length_take_le _ _
        · exact List.length_take_le _ _
  · exact List.length_take_le _ _
  · unfold search_descendants
    split
    · simp
    · dsimp only
      split
      · simp
      · exact List.length_take_le _ _

/-- Counterexample for C6 as stated: the ancestors listing takes no limit;
on `deep_store` it returns 2 rows, exceeding the positive cap k = 1. -/
theorem claim_limit_cap_cex :
    ((get_concept deep_store 100).map fun v => v.ancestors.length) = some 2 ∧
    ¬ ((2 : Nat) ≤ 1) :=
  ⟨by decide, by decide⟩

/-- C10: the query is interpolated unescaped into the ILIKE patterns, so for
the query `"%"` every concept satisfies the exact-mode match predicate and
every name passes the descendant-search pattern, even when name and code do
not literally contain a `%`; concretely, the demo concepts named
"Other thing" (code "E11") match although neither field contains `%`. -/
theorem claim_wildcard_leak :
    (∀ c : Concept, exact_match "%" c = true) ∧
    (∀ s : String, ilike s ("%" ++ "%" ++ "%") = true) ∧
    hasSub (lowerL "%") (lowerL "Other thing") = false ∧
    hasSub (lowerL "%") (lowerL "E11") = false ∧
    ((search_concepts demo_store (fun _ => []) (fun _ _ => 0) (fun _ _ => false)
        (fun _ _ => 0) "%" none none none none none 50).map fun c => c.concept_id) =
      [1, 3, 2] ∧
    ((search_descendants deep_store 101 "%" 50).map fun r => r.concept_id) = [100] := by
  refine ⟨?_, ?_, by decide, by decide, by decide, by decide⟩
  · intro c
    unfold exact_match
    rw [ilike_all_pct, ilike_all_pct]
    rfl
  · exact ilike_all_pct

/-! ## Origin of related-concept rows -/

/-- Every row produced by the two directional queries comes from a stored
edge of kind 'Maps to'/'Mapped from' with null invalidation reason, linking
the requested concept to the row's concept. -/
theorem similar_rows_origin (store : Store) (concept_id : Int) (limit : Nat) :
    ∀ r ∈ similar_outgoing store concept_id limit ++ similar_incoming store concept_id limit,
      ∃ cr ∈ store.concept_relationships,
        (cr.relationship_id = "Maps to" ∨ cr.relationship_id = "Mapped from") ∧
        cr.invalid_reason = none ∧ cr.relationship_id = r.relationship_id ∧
        ((cr.concept_id_1 = concept_id ∧ cr.concept_id_2 = r.concept_id) ∨
         (cr.concept_id_2 = concept_id ∧ cr.concept_id_1 = r.concept_id)) := by
  intro r hr
  rcases List.mem_append.mp hr with h | h
  · unfold similar_outgoing at h
    obtain ⟨cr, hcr, hr2⟩ := List.mem_flatMap.mp (List.take_subset _ _ h)
    obtain ⟨hmem, hpred⟩ := List.mem_filter.mp hcr
    simp only [Bool.and_eq_true, Bool.or_eq_true, beq_iff_eq,
      Option.isNone_iff_eq_none] at hpred
    obtain ⟨⟨h1, hkind⟩, hnone⟩ := hpred
    obtain ⟨rc, hrc, hr3⟩ := List.mem_flatMap.mp hr2
    have hrc2 : rc.concept_id = cr.concept_id_2 :=
      beq_iff_eq.mp (List.mem_filter.mp hrc).2
    obtain ⟨rrow, _, hfr⟩ := List.mem_map.mp hr3
    exact ⟨cr, hmem, hkind, hnone, by rw [← hfr], Or.inl ⟨h1, by rw [← hfr, ← hrc2]⟩⟩
  · unfold similar_incoming at h
    obtain ⟨cr, hcr, hr2⟩ := List.mem_flatMap.mp (List.take_subset _ _ h)
    obtain ⟨hmem, hpred⟩ := List.mem_filter.mp hcr
    simp only [Bool.and_eq_true, Bool.or_eq_true, beq_iff_eq,
      Option.isNone_iff_eq_none] at hpred
    obtain ⟨⟨h2, hkind⟩, hnone⟩ := hpred
    obtain ⟨rc, hrc, hr3⟩ := List.mem_flatMap.mp hr2
    have hrc1 : rc.concept_id = cr.concept_id_1 :=
      beq_iff_eq.mp (List.mem_filter.mp hrc).2
    obtain ⟨rrow, _, hfr⟩ := List.mem_map.mp hr3
    exact ⟨cr, hmem, hkind, hnone, by rw [← hfr], Or.inr ⟨h2, by rw [← hfr, ← hrc1]⟩⟩

/-- C2: the related-by-relationship result has pairwise-distinct concept ids,
every row originates in a stored valid 'Maps to'/'Mapped from' edge touching
the requested concept, the kept row for each neighbor id is the first
occurrence in outgoing-then-incoming order, and the merged list is truncated
to `limit`. -/
theorem claim_related_dedup (store : Store) (concept_id : Int) (limit : Nat) :
    ((find_similar_concepts store concept_id limit).map fun r => r.concept_id).Nodup ∧
    (∀ r ∈ find_similar_concepts store concept_id limit,
      ∃ cr ∈ store.concept_relationships,
        (cr.relationship_id = "Maps to" ∨ cr.relationship_id = "Mapped from") ∧
        cr.invalid_reason = none ∧ cr.relationship_id = r.relationship_id ∧
        ((cr.concept_id_1 = concept_id ∧ cr.concept_id_2 = r.concept_id) ∨
         (cr.concept_id_2 = concept_id ∧ cr.concept_id_1 = r.concept_id))) ∧
    (∀ r ∈ find_similar_concepts store concept_id limit,
      (similar_outgoing store concept_id limit ++
        similar_incoming store concept_id limit).find?
        (fun y => y.concept_id == r.concept_id) = some r) ∧
    (find_similar_concepts store concept_id limit).length ≤ limit := by
  refine ⟨?_, ?_, ?_, List.length_take_le _ _⟩
  · unfold find_similar_concepts
    rw [List.map_take]
    exact List.Nodup.sublist (List.take_sublist _ _) (dedup_nodup _ _)
  · intro r hr
    unfold find_similar_concepts at hr
    exact similar_rows_origin store concept_id limit r
      (dedup_subset _ _ (List.take_subset _ _ hr))
  · intro r hr
    unfold find_similar_concepts at hr
    exact dedup_find (List.take_subset _ _ hr)

/-- Witness for C2 on the demo snapshot (one outgoing and one incoming valid
edge, plus one invalidated edge that is filtered out). -/
theorem claim_related_dedup_witness :
    ((⟨"Maps to", 2, "xxE11yy", "ICD10CM", "ZZZ", none⟩ : RelatedRow) ∈
      find_similar_concepts demo_store 1 20) ∧
    (∃ cr ∈ demo_store.concept_relationships,
      (cr.relationship_id = "Maps to" ∨ cr.relationship_id = "Mapped from") ∧
      cr.invalid_reason = none ∧
      cr.relationship_id =
        (⟨"Maps to", 2, "xxE11yy", "ICD10CM", "ZZZ", none⟩ : RelatedRow).relationship_id ∧
      ((cr.concept_id_1 = 1 ∧
          cr.concept_id_2 =
            (⟨"Maps to", 2, "xxE11yy", "ICD10CM", "ZZZ", none⟩ : RelatedRow).concept_id) ∨
       (cr.concept_id_2 = 1 ∧
          cr.concept_id_1 =
            (⟨"Maps to", 2, "xxE11yy", "ICD10CM", "ZZZ", none⟩ : RelatedRow).concept_id))) :=
  ⟨by decide, (claim_related_dedup demo_store 1 20).2.1 _ (by decide)⟩

/-- The concept page's joined view of concept 1 in the demo snapshot. -/
def demo_view : ConceptDetailView :=
  ⟨⟨1, "Other thing", "Condition", "SNOMED", "Clinical Finding", some "S", "E11", none⟩,
   [⟨⟨3, 1, 1, 1⟩, "Type 2 diabetes", "SNOMED", "44054006"⟩],
   [],
   [⟨1, 2, "Maps to", none⟩, ⟨1, 3, "Maps to", some "D"⟩]⟩

/-- C9 (amended): the related-by-relationship operation returns only rows
originating in edges with null invalidation reason, but the single-concept
fetch's relationship listing applies no validity filter: it returns every
stored edge whose source is the concept, invalidated ones included. -/
theorem claim_valid_edges :
    (∀ (store : Store) (concept_id : Int) (v : ConceptDetailView),
      get_concept store concept_id = some v →
      v.relationships =
        store.concept_relationships.filter fun cr => cr.concept_id_1 == concept_id) ∧
    (∀ (store : Store) (concept_id : Int) (limit : Nat),
      ∀ r ∈ find_similar_concepts store concept_id limit,
        ∃ cr ∈ store.concept_relationships,
          cr.invalid_reason = none ∧ cr.relationship_id = r.relationship_id) := by
  constructor
  · intro store concept_id v hv
    unfold get_concept at hv
    split at hv
    · exact Option.noConfusion hv
    · obtain rfl := Option.some.inj hv
      rfl
  · intro store concept_id limit r hr
    unfold find_similar_concepts at hr
    obtain ⟨cr, hmem, _, hnone, hrel, _⟩ :=
      similar_rows_origin store concept_id limit r
        (dedup_subset _ _ (List.take_subset _ _ hr))
    exact ⟨cr, hmem, hnone, hrel⟩

/-- Counterexample for C9 as stated: the single-concept fetch for concept 1
on the demo snapshot returns the edge (1, 3, 'Maps to') whose invalidation
reason is the non-null 'D'. -/
theorem claim_valid_edges_cex :
    ((get_concept demo_store 1).map fun v => v.relationships) =
      some [⟨1, 2, "Maps to", none⟩, ⟨1, 3, "Maps to", some "D"⟩] ∧
    ((⟨1, 3, "Maps to", some "D"⟩ : ConceptRelationship).invalid_reason ≠ none) :=
  ⟨by decide, by decide⟩

/-- Witness for C9 (amended) at the demo snapshot. -/
theorem claim_valid_edges_witness :
    (get_concept demo_store 1 = some demo_view) ∧
    demo_view.relationships =
      demo_store.concept_relationships.filter (fun cr => cr.concept_id_1 == 1) :=
  ⟨by decide, claim_valid_edges.1 demo_store 1 demo_view (by decide)⟩

/-- A transitive-closure table is well formed when separations are
nonnegative and a separation-0 row is a self row, as the spec's data-model
invariant (every concept is its own ancestor at separation 0) intends. -/
def closureWellFormed (store : Store) : Prop :=
  ∀ ca ∈ store.concept_ancestors,
    0 ≤ ca.min_levels_of_separation ∧
    (ca.min_levels_of_separation = 0 →
      ca.ancestor_concept_id = ca.descendant_concept_id)

instance (store : Store) : Decidable (closureWellFormed store) :=
  List.decidableBAll _ store.concept_ancestors

/-- C3: on a well-formed closure table, the ancestors listing contains only
rows with the concept as descendant and separation strictly positive, never
the concept itself, ordered ascending by min separation; the descendants
listing contains only rows with separation exactly 1 (never 0, never more)
and never the concept itself. -/
theorem claim_hierarchy_rows (store : Store) (concept_id : Int)
    (hwf : closureWellFormed store) (v : ConceptDetailView)
    (hv : get_concept store concept_id = some v) :
    (∀ r ∈ v.ancestors,
      r.ca.descendant_concept_id = concept_id ∧
      0 < r.ca.min_levels_of_separation ∧
      r.ca.ancestor_concept_id ≠ concept_id) ∧
    List.Pairwise
      (fun a b => a.ca.min_levels_of_separation ≤ b.ca.min_levels_of_separation)
      v.ancestors ∧
    (∀ r ∈ v.descendants,
      r.ca.min_levels_of_separation = 1 ∧
      r.ca.ancestor_concept_id = concept_id ∧
      r.ca.descendant_concept_id ≠ concept_id) := by
  unfold get_concept at hv
  split at hv
  · exact Option.noConfusion hv
  · obtain rfl := Option.some.inj hv
    refine ⟨?_, ?_, ?_⟩
    · intro r hr
      obtain ⟨ca, hca, hr2⟩ := List.mem_flatMap.mp (mem_sortByKey.mp hr)
      obtain ⟨hmem, hpred⟩ := List.mem_filter.mp hca
      simp only [Bool.and_eq_true, beq_iff_eq, bne_iff_ne] at hpred
      obtain ⟨hdesc, hanc⟩ := hpred
      obtain ⟨c2, _, hfr⟩ := List.mem_map.mp hr2
      have hrca : r.ca = ca := by rw [← hfr]
      obtain ⟨h0, himp⟩ := hwf ca hmem
      refine ⟨hrca ▸ hdesc, ?_, hrca ▸ hanc⟩
      rcases h0.lt_or_eq with h | h
      · exact hrca ▸ h
      · exact absurd (hdesc ▸ himp h.symm) hanc
    · exact sortByKey_sorted _ _
    · intro r hr
      obtain ⟨ca, hca, hr2⟩ := List.mem_flatMap.mp hr
      obtain ⟨hmem, hpred⟩ := List.mem_filter.mp hca
      simp only [Bool.and_eq_true, beq_iff_eq, bne_iff_ne] at hpred
      obtain ⟨⟨hanc, hdesc⟩, hsep⟩ := hpred
      obtain ⟨c2, _, hfr⟩ := List.mem_map.mp hr2
      have hrca : r.ca = ca := by rw [← hfr]
      exact ⟨hrca ▸ hsep, hrca ▸ hanc, hrca ▸ hdesc⟩

/-- Witness for C3 at the demo snapshot, whose closure table contains a
separation-0 self row for concept 1. -/
theorem claim_hierarchy_rows_witness :
    closureWellFormed demo_store ∧
    ((∀ r ∈ demo_view.ancestors,
        r.ca.descendant_concept_id = 1 ∧
        0 < r.ca.min_levels_of_separation ∧
        r.ca.ancestor_concept_id ≠ 1) ∧
      List.Pairwise
        (fun a b => a.ca.min_levels_of_separation ≤ b.ca.min_levels_of_separation)
        demo_view.ancestors ∧
      (∀ r ∈ demo_view.descendants,
        r.ca.min_levels_of_separation = 1 ∧
        r.ca.ancestor_concept_id = 1 ∧
        r.ca.descendant_concept_id ≠ 1)) :=
  ⟨by decide, claim_hierarchy_rows demo_store 1 (by decide) demo_view (by decide)⟩

/-! ## Semantic, fuzzy and exact ranking claims -/

/-- Every scored pair produced by the semantic pipeline joins a concept to
one of its stored embedding rows, with score `1 - dist`. -/
theorem semantic_pair_origin (store : Store) (embed : String → List ℚ)
    (dist : List ℚ → List ℚ → ℚ) (q : String)
    (vocabulary_id domain_id standard_only : Option String) (limit : Nat) :
    ∀ p ∈ semantic_results store embed dist q vocabulary_id domain_id standard_only limit,
      ∃ e ∈ store.concept_embeddings,
        e.concept_id = p.1.concept_id ∧ p.2 = 1 - dist e.embedding (embed q) := by
  intro p hp
  unfold semantic_results at hp
  have hp2 := applyFilters_subset Prod.fst vocabulary_id domain_id standard_only _
    (mem_sortByKey.mp (List.take_subset _ _ hp))
  obtain ⟨c, _, hp4⟩ := List.mem_flatMap.mp hp2
  obtain ⟨e, he, hfe⟩ := List.mem_map.mp hp4
  have he2 : e.concept_id = c.concept_id := beq_iff_eq.mp (List.mem_filter.mp he).2
  refine ⟨e, (List.mem_filter.mp he).1, ?_, ?_⟩
  · rw [he2, ← hfe]
  · rw [← hfe]

/-- C4: in semantic mode the result is exactly the projection of the scored
join of concepts with their stored embeddings — so a concept without a
stored embedding never appears — each score is 1 minus the cosine distance
between the stored vector and the query vector, and the scored list is
ordered by score descending. -/
theorem claim_semantic_scoring (store : Store) (embed : String → List ℚ)
    (dist : List ℚ → List ℚ → ℚ) (trgm : String → String → Bool)
    (similarity : String → String → ℚ) (q : String)
    (vocabulary_id domain_id fuzzy standard_only : Option String) (limit : Nat)
    (hne : ¬(q = "" ∨ pyStrip q = [])) :
    search_concepts store embed dist trgm similarity q vocabulary_id domain_id fuzzy
        (some "true") standard_only limit =
      (semantic_results store embed dist q vocabulary_id domain_id standard_only
        limit).map Prod.fst ∧
    List.Pairwise (fun p1 p2 : Concept × ℚ => p2.2 ≤ p1.2)
      (semantic_results store embed dist q vocabulary_id domain_id standard_only limit) ∧
    (∀ c ∈ search_concepts store embed dist trgm similarity q vocabulary_id domain_id
        fuzzy (some "true") standard_only limit,
      ∃ e ∈ store.concept_embeddings, e.concept_id = c.concept_id) := by
  have ha := search_semantic_eq store embed dist trgm similarity q vocabulary_id
    domain_id fuzzy standard_only limit hne
  refine ⟨ha, ?_, ?_⟩
  · unfold semantic_results
    refine List.Pairwise.sublist (List.take_sublist _ _) ?_
    exact (sortByKey_sorted (fun p : Concept × ℚ => -p.2) _).imp
      (fun h => neg_le_neg_iff.mp h)
  · intro c hc
    rw [ha] at hc
    obtain ⟨p, hp, hpc⟩ := List.mem_map.mp hc
    obtain ⟨e, hemem, heid, _⟩ := semantic_pair_origin store embed dist q vocabulary_id
      domain_id standard_only limit p hp
    exact ⟨e, hemem, by rw [heid, hpc]⟩

/-- Witness for C4 at the demo snapshot (concepts 2 and 3 have no embedding
row and are excluded). -/
theorem claim_semantic_scoring_witness :
    ¬(("sugar disease" : String) = "" ∨ pyStrip "sugar disease" = []) ∧
    (search_concepts demo_store (fun _ => [1, 0]) (fun _ _ => 0) (fun _ _ => false)
        (fun _ _ => 0) "sugar disease" none none none (some "true") none 50 =
      (semantic_results demo_store (fun _ => [1, 0]) (fun _ _ => 0) "sugar disease"
        none none none 50).map Prod.fst ∧
    List.Pairwise (fun p1 p2 : Concept × ℚ => p2.2 ≤ p1.2)
      (semantic_results demo_store (fun _ => [1, 0]) (fun _ _ => 0) "sugar disease"
        none none none 50) ∧
    (∀ c ∈ search_concepts demo_store (fun _ => [1, 0]) (fun _ _ => 0)
        (fun _ _ => false) (fun _ _ => 0) "sugar disease" none none none (some "true")
        none 50,
      ∃ e ∈ demo_store.concept_embeddings, e.concept_id = c.concept_id)) :=
  ⟨by decide,
    claim_semantic_scoring demo_store (fun _ => [1, 0]) (fun _ _ => 0)
      (fun _ _ => false) (fun _ _ => 0) "sugar disease" none none none none 50
      (by decide)⟩

/-- C5: in fuzzy mode a concept matches the fetch predicate exactly when the
provider trigram operator accepts its name or its code contains the query as
a case-insensitive substring (for a wildcard-free query), and the result is
the candidate list ordered by (code equals query, similarity descending,
name ascending) and truncated. -/
theorem claim_fuzzy_predicate_ranking (store : Store) (embed : String → List ℚ)
    (dist : List ℚ → List ℚ → ℚ) (trgm : String → String → Bool)
    (similarity : String → String → ℚ) (q : String)
    (vocabulary_id domain_id semantic standard_only : Option String) (limit : Nat)
    (hq : NoWildcards q) (hne : ¬(q = "" ∨ pyStrip q = []))
    (hsm : semantic ≠ some "true") :
    (∀ c : Concept, fuzzy_match trgm q c = true ↔
      (trgm c.concept_name q = true ∨ hasSub (lowerL q) (lowerL c.concept_code) = true)) ∧
    search_concepts store embed dist trgm similarity q vocabulary_id domain_id
        (some "true") semantic standard_only limit =
      (sortByKey (fuzzy_rank similarity q (lowerL q))
        (applyFilters id vocabulary_id domain_id standard_only
          (store.concepts.filter (fuzzy_match trgm q)))).take limit ∧
    List.Pairwise
      (fun a b => fuzzy_rank similarity q (lowerL q) a ≤ fuzzy_rank similarity q (lowerL q) b)
      (search_concepts store embed dist trgm similarity q vocabulary_id domain_id
        (some "true") semantic standard_only limit) := by
  have heq := search_fuzzy_eq store embed dist trgm similarity q vocabulary_id
    domain_id semantic standard_only limit hne hsm
  refine ⟨?_, heq, ?_⟩
  · intro c
    unfold fuzzy_match
    rw [ilike_wildfree q hq]
    simp
  · rw [heq]
    exact List.Pairwise.sublist (List.take_sublist _ _) (sortByKey_sorted _ _)

/-- Witness for C5 at the typo query "daibetes" with a trigram operator that
accepts it against the diabetes concept name. -/
theorem claim_fuzzy_predicate_ranking_witness :
    NoWildcards "daibetes" ∧
    ((∀ c : Concept, fuzzy_match (fun a _ => a == "Type 2 diabetes") "daibetes" c = true ↔
        ((fun a _ => a == "Type 2 diabetes") c.concept_name "daibetes" = true ∨
          hasSub (lowerL "daibetes") (lowerL c.concept_code) = true)) ∧
      search_concepts demo_store (fun _ => []) (fun _ _ => 0)
          (fun a _ => a == "Type 2 diabetes") (fun _ _ => 0) "daibetes" none none
          (some "true") none none 50 =
        (sortByKey (fuzzy_rank (fun _ _ => 0) "daibetes" (lowerL "daibetes"))
          (applyFilters id none none none
            (demo_store.concepts.filter
              (fuzzy_match (fun a _ => a == "Type 2 diabetes") "daibetes")))).take 50 ∧
      List.Pairwise
        (fun a b => fuzzy_rank (fun _ _ => 0) "daibetes" (lowerL "daibetes") a ≤
          fuzzy_rank (fun _ _ => 0) "daibetes" (lowerL "daibetes") b)
        (search_concepts demo_store (fun _ => []) (fun _ _ => 0)
          (fun a _ => a == "Type 2 diabetes") (fun _ _ => 0) "daibetes" none none
          (some "true") none none 50)) :=
  ⟨by decide,
    claim_fuzzy_predicate_ranking demo_store (fun _ => []) (fun _ _ => 0)
      (fun a _ => a == "Type 2 diabetes") (fun _ _ => 0) "daibetes" none none none
      none 50 (by decide) (by decide) (by decide)⟩

/-- Under a wildcard-free query the implemented exact-mode key coincides with
the key written in the spec's words. -/
theorem exact_rank_eq_spec {q : String} (hq : NoWildcards q) (c : Concept) :
    exact_rank (lowerL q) c = spec_exact_rank q c := by
  unfold exact_rank spec_exact_rank
  rw [likeMatch_wildfree_pct _ hq, likeMatch_wildfree_pct _ hq]

/-- C1: in exact/prefix mode the result respects the six-key ranking (code
equality, name equality, code starts-with, name starts-with, standardness,
name) stated in the spec's words, and any concept whose code
case-insensitively equals the query is placed strictly before any concept
matching only by name substring. -/
theorem claim_exact_ranking (store : Store) (embed : String → List ℚ)
    (dist : List ℚ → List ℚ → ℚ) (trgm : String → String → Bool)
    (similarity : String → String → ℚ) (q : String)
    (vocabulary_id domain_id fuzzy semantic standard_only : Option String) (limit : Nat)
    (hq : NoWildcards q) (hsm : semantic ≠ some "true") (hfz : fuzzy ≠ some "true") :
    let res := search_concepts store embed dist trgm similarity q vocabulary_id
      domain_id fuzzy semantic standard_only limit
    List.Pairwise (fun a b => spec_exact_rank q a ≤ spec_exact_rank q b) res ∧
    ∀ i j : Fin res.length,
      lowerL (res.get i).concept_code = lowerL q →
      hasSub (lowerL q) (lowerL (res.get j).concept_name) = true →
      hasSub (lowerL q) (lowerL (res.get j).concept_code) = false →
      (i : Nat) < (j : Nat) := by
  intro res
  by_cases h0 : q = "" ∨ pyStrip q = []
  · have hres : res = [] := by
      unfold res search_concepts
      rw [if_pos h0]
    constructor
    · rw [hres]
      exact List.Pairwise.nil
    · intro i j _ _ _
      exfalso
      have hi := i.isLt
      have hlen : res.length = 0 := by rw [hres]; rfl
      omega
  · have heq : res =
        (sortByKey (exact_rank (lowerL q))
          (applyFilters id vocabulary_id domain_id standard_only
            (store.concepts.filter (exact_match q)))).take limit :=
      search_exact_eq store embed dist trgm similarity q vocabulary_id domain_id
        fuzzy semantic standard_only limit h0 hsm hfz
    have hpair : List.Pairwise
        (fun a b => exact_rank (lowerL q) a ≤ exact_rank (lowerL q) b) res := by
      rw [heq]
      exact List.Pairwise.sublist (List.take_sublist _ _) (sortByKey_sorted _ _)
    have hpairs : List.Pairwise
        (fun a b => spec_exact_rank q a ≤ spec_exact_rank q b) res :=
      hpair.imp (fun {a b} h => by
        rwa [exact_rank_eq_spec hq a, exact_rank_eq_spec hq b] at h)
    refine ⟨hpairs, ?_⟩
    intro i j h1 h2 h3
    by_contra hij
    push_neg at hij
    rcases eq_or_lt_of_le hij with heq2 | hlt
    · have hji : j = i := Fin.ext heq2
      rw [hji, h1] at h3
      rw [hasSub_self] at h3
      exact Bool.noConfusion h3
    · have hle := (List.pairwise_iff_get.mp hpairs) j i hlt
      have hci : (lowerL (res.get i).concept_code == lowerL q) = true :=
        beq_iff_eq.mpr h1
      have hcj : (lowerL (res.get j).concept_code == lowerL q) = false := by
        rw [beq_eq_false_iff_ne]
        intro he
        rw [he, hasSub_self] at h3
        exact Bool.noConfusion h3
      unfold spec_exact_rank at hle
      rw [hci, hcj] at hle
      simp only [boolFlag, if_pos, if_neg, Bool.false_eq_true, not_false_eq_true,
        if_true, if_false] at hle
      rw [Prod.Lex.le_iff] at hle
      rcases hle with h | ⟨h, _⟩
      · omega
      · omega

/-- Witness for C1: an exact-mode search where a code-equal concept and a
name-substring-only concept both match. -/
theorem claim_exact_ranking_witness :
    NoWildcards "E11" ∧
    (let res := search_concepts demo_store (fun _ => []) (fun _ _ => (0 : ℚ))
      (fun _ _ => false) (fun _ _ => (0 : ℚ)) "E11" none none none none none 50
    List.Pairwise (fun a b => spec_exact_rank "E11" a ≤ spec_exact_rank "E11" b) res ∧
    ∀ i j : Fin res.length,
      lowerL (res.get i).concept_code = lowerL "E11" →
      hasSub (lowerL "E11") (lowerL (res.get j).concept_name) = true →
      hasSub (lowerL "E11") (lowerL (res.get j).concept_code) = false →
      (i : Nat) < (j : Nat)) :=
  ⟨by decide,
    claim_exact_ranking demo_store (fun _ => []) (fun _ _ => (0 : ℚ))
      (fun _ _ => false) (fun _ _ => (0 : ℚ)) "E11" none none none none none 50
      (by decide) (by decide) (by decide)⟩

end PyOVT
